import Mathlib

/-!
Shallow embedding of the core of the Signer-wallet-tool repository:

* the identity-label engine (`extractNameAndType`, `generateAddressLabels`)
  from `src/lib/utils.ts`;
* the network registry from `src/lib/chains.ts`;
* the retrying query client, ownership resolver and reverse-ownership
  scanner (`fetchWithRetry`, `getSafeInfo`, `getSafeInfoFromAllNetworks`,
  `getSafesByOwner`) from `src/lib/safe-service.ts`.

Strings are modelled over their character lists (ASCII; the JavaScript
source operates on UTF-16 strings, and all classification in the source
is on ASCII characters).  Network I/O is modelled by oracle functions
supplied as parameters; every model records the calls it performs so the
claims about call counts and probing order can be stated.
-/

/-- JavaScript whitespace (`\s`) restricted to ASCII: space, tab, LF, CR,
vertical tab, form feed. -/
def isWsC (c : Char) : Bool :=
  c == ' ' || c == '\t' || c == '\n' || c == '\r' || c == '\x0b' || c == '\x0c'

/-- `String.prototype.toLowerCase`, per character (ASCII range). -/
def lowerC (c : Char) : Char := Char.toLower c

/-- `toLowerCase` on a character list. -/
def lowerL (cs : List Char) : List Char := cs.map lowerC

/-- `toLowerCase` on a string. -/
def lowerS (s : String) : String := ⟨lowerL s.data⟩

/-- `String.prototype.trim` on a character list. -/
def trimL (cs : List Char) : List Char :=
  ((cs.dropWhile isWsC).reverse.dropWhile isWsC).reverse

/-- `String.prototype.trim` on a string. -/
def trimS (s : String) : String := ⟨trimL s.data⟩

/-- Does `cs` start with `pat`? (`String.prototype.startsWith`.) -/
def startsWithL : List Char → List Char → Bool
  | [], _ => true
  | _ :: _, [] => false
  | p :: ps, c :: cs => p == c && startsWithL ps cs

/-- Does `cs` contain `pat` as a contiguous substring?
(`String.prototype.includes`.) -/
def substrL (pat : List Char) : List Char → Bool
  | [] => pat.isEmpty
  | c :: cs => startsWithL pat (c :: cs) || substrL pat cs

/-- `hay.includes(pat)` on strings. -/
def includesS (hay pat : String) : Bool := substrL pat.data hay.data

/-- `s.startsWith(pat)` on strings. -/
def startsWithS (s pat : String) : Bool := startsWithL pat.data s.data

/-- `replace(/_/g, ' ')`. -/
def mapUnd (cs : List Char) : List Char :=
  cs.map (fun c => if c == '_' then ' ' else c)

/-- `replace(/\s+/g, ' ')`: each maximal whitespace run becomes one space. -/
def collapseWsL : List Char → List Char
  | [] => []
  | [c] => [if isWsC c then ' ' else c]
  | c :: d :: cs =>
    if isWsC c && isWsC d then collapseWsL (d :: cs)
    else (if isWsC c then ' ' else c) :: collapseWsL (d :: cs)

/-- Strip `kw` (given in lowercase) from the front of `cs`,
case-insensitively; return the remainder on success. -/
def stripCI : List Char → List Char → Option (List Char)
  | [], cs => some cs
  | _ :: _, [] => none
  | k :: ks, c :: cs => if lowerC c == k then stripCI ks cs else none

/-- Match the regex fragment `\s*[_\s]?KW` at the head of `cs` and return
the remainder.  The quantifiers are deterministic here because every
keyword starts with a letter or digit (never whitespace or `_`). -/
def leadMatch (kw : List Char) (cs : List Char) : Option (List Char) :=
  let cs1 := cs.dropWhile isWsC
  match cs1 with
  | '_' :: t => stripCI kw t
  | _ => stripCI kw cs1

/-- Match `\s*[_\s]?KW₁\s*[_\s]?KW₂…\s*` at the head of `cs`; return the
remainder after the trailing `\s*`. -/
def tryPat (kws : List (List Char)) (cs : List Char) : Option (List Char) :=
  match kws with
  | [] => some (cs.dropWhile isWsC)
  | k :: rest =>
    match leadMatch k cs with
    | some cs1 => tryPat rest cs1
    | none => none

/-- `String.prototype.replace` with one of the keyword-stripping regexes of
`extractNameAndType`: remove the leftmost match (the source regexes have no
`g` flag, so only the first match is removed). -/
def removePat (kws : List (List Char)) : List Char → List Char
  | [] => []
  | c :: cs =>
    match tryPat kws (c :: cs) with
    | some rest => rest
    | none => c :: removePat kws cs

/-- JavaScript word character (`\w` = `[A-Za-z0-9_]`). -/
def isWordC (c : Char) : Bool := c.isAlpha || c.isDigit || c == '_'

/-- Match `account\s*[_\s]?d\b` at the head of `cs` (`cs` already
lowercased). -/
def accAt (d : Char) (cs : List Char) : Bool :=
  match stripCI ['a', 'c', 'c', 'o', 'u', 'n', 't'] cs with
  | none => false
  | some rest =>
    let r1 := rest.dropWhile isWsC
    let r2 := match r1 with
      | '_' :: t => t
      | _ => r1
    match r2 with
    | [] => false
    | c :: rest2 =>
      c == d && (match rest2 with
        | [] => true
        | e :: _ => !isWordC e)

/-- Scan for the regex `\baccount\s*[_\s]?d\b` anywhere in `cs`.  The first
argument tracks whether a word boundary precedes the current position. -/
def accScan (d : Char) : Bool → List Char → Bool
  | _, [] => false
  | bnd, c :: cs => (bnd && accAt d (c :: cs)) || accScan d (!isWordC c) cs

/-- `lower.match(/\baccount\s*[_\s]?d\b/i)` viewed as a boolean. -/
def accRegex (d : Char) (cs : List Char) : Bool := accScan d true cs

/-- Result of `extractNameAndType`. -/
structure NameType where
  name : String
  type : Option String
deriving DecidableEq, Repr

/-- `extractNameAndType` from `src/lib/utils.ts` (lines 129-176): extract a
device/role type keyword from a raw label and return the cleaned name with
the extracted type.  `none` models JavaScript `null` (and the `!fullName`
guard also catches the empty string). -/
def extractNameAndType (fullName : Option String) : NameType :=
  match fullName with
  | none => ⟨"", none⟩
  | some fn =>
    if fn == "" then ⟨"", none⟩
    else
      let lower : List Char := trimL (lowerL fn.data)
      let clean0 : List Char := trimL fn.data
      let acc : Char → Bool := fun d =>
        accRegex d lower || substrL ("account ".data ++ [d]) lower
          || substrL ("account_".data ++ [d]) lower
      let step : List Char × Option String :=
        if substrL "hot".data lower && substrL "wallet".data lower then
          (trimL (removePat ["hot".data, "wallet".data] clean0), some "Hot Wallet")
        else if substrL "hardware".data lower && substrL "wallet".data lower then
          (trimL (removePat ["hardware".data, "wallet".data] clean0), some "Hardware Wallet")
        else if substrL "ledger".data lower then
          (trimL (removePat ["ledger".data] clean0), some "Ledger")
        else if acc '1' then
          (trimL (removePat ["account".data, ['1']] clean0), some "Account 1")
        else if acc '2' then
          (trimL (removePat ["account".data, ['2']] clean0), some "Account 2")
        else if acc '3' then
          (trimL (removePat ["account".data, ['3']] clean0), some "Account 3")
        else if acc '4' then
          (trimL (removePat ["account".data, ['4']] clean0), some "Account 4")
        else if substrL "operator".data lower then
          (trimL (removePat ["operator".data] clean0), some "Operator")
        else if substrL "proposer".data lower then
          (trimL (removePat ["proposer".data] clean0), some "Proposer")
        else (clean0, none)
      ⟨⟨trimL (collapseWsL (mapUnd step.1))⟩, step.2⟩

/-- Input of `generateAddressLabels`: one address row of a signer
(`name`/`type` are nullable columns; `none` models `null`). -/
structure AddrIn where
  id : String
  address : String
  name : Option String
  type : Option String
deriving DecidableEq, Repr

/-- Output of `generateAddressLabels`. -/
structure AddrOut where
  id : String
  address : String
  displayName : String
  displayType : String
deriving DecidableEq, Repr

/-- JavaScript truthiness of a nullable string. -/
def truthyO : Option String → Bool
  | none => false
  | some s => s != ""

/-- JavaScript `a || b` on nullable strings. -/
def jsOr (a b : Option String) : Option String :=
  if truthyO a then a else b

/-- First pass of `generateAddressLabels`: compute the tentative
`(displayName, displayType)` of one address; `some (dn, dt)` puts it in
the explicit-type group, `none` in the needs-account-number group. -/
def firstPass (base : String) (se : NameType) (a : AddrIn) :
    Option (String × String) :=
  let dnt : String × Option String :=
    if truthyO a.name then
      let e := extractNameAndType a.name
      ((if e.name != "" then e.name else base), jsOr e.type a.type)
    else if truthyO a.type then (base, a.type)
    else if truthyO se.type && !startsWithS (se.type.getD "") "Account " then
      (base, se.type)
    else (base, none)
  match dnt.2 with
  | some t =>
    if t != "" && !startsWithS t "Account " then some (dnt.1, t) else none
  | none => none

/-- Order-preserving split of the first pass over a list: group A (with
their tentative name and type) and group B. -/
def splitPass (f : AddrIn → Option (String × String)) :
    List AddrIn → List (AddrIn × String × String) × List AddrIn
  | [] => ([], [])
  | a :: t =>
    let r := splitPass f t
    match f a with
    | some p => ((a, p.1, p.2) :: r.1, r.2)
    | none => (r.1, a :: r.2)

/-- `Set.prototype.add` on the used-combination set (modelled as a
duplicate-free list). -/
def addUsed (k : String) (l : List String) : List String :=
  if l.contains k then l else k :: l

/-- The `while` loop of the second pass: find the least `c ≥ 1` whose
`Account (base + c)` key is not yet used.  `fuel = used.length + 1`
candidates always contain a free one, so the fuel never runs out. -/
def bSearch (used : List String) (dnLow : String) (base : Nat) :
    Nat → Nat → String
  | 0, c => "Account " ++ toString (base + c)
  | fuel + 1, c =>
    let cand := "Account " ++ toString (base + c)
    if used.contains (dnLow ++ "|" ++ lowerS cand) then
      bSearch used dnLow base fuel (c + 1)
    else cand

/-- Second pass, explicit-type group: assign final display types, appending
`" Account n"` on a used `(name, type)` combination. -/
def processA : List (AddrIn × String × String) → List String → Nat →
    List AddrOut × List String × Nat
  | [], used, ctr => ([], used, ctr)
  | (a, dn, dt) :: rest, used, ctr =>
    let key := lowerS dn ++ "|" ++ lowerS dt
    let fc : String × Nat :=
      if used.contains key then (dt ++ " Account " ++ toString (ctr + 1), ctr + 1)
      else (dt, ctr)
    let used1 := addUsed (lowerS dn ++ "|" ++ lowerS fc.1) used
    let r := processA rest used1 fc.2
    (⟨a.id, a.address, dn, fc.1⟩ :: r.1, r.2.1, r.2.2)

/-- Second pass, sequential-number group: assign `Account n` with the shared
monotone counter, searching past collisions introduced by the first group. -/
def processB (base : String) : List AddrIn → List String → Nat → List AddrOut
  | [], _, _ => []
  | a :: rest, used, ctr =>
    let ctr1 := ctr + 1
    let dt := "Account " ++ toString ctr1
    let key := lowerS base ++ "|" ++ lowerS dt
    let final :=
      if used.contains key then bSearch used (lowerS base) ctr1 (used.length + 1) 1
      else dt
    let used1 := addUsed (lowerS base ++ "|" ++ lowerS final) used
    ⟨a.id, a.address, base, final⟩ :: processB base rest used1 ctr1

/-- Lexicographic order on character lists by code point. -/
def lexLe : List Char → List Char → Bool
  | [], _ => true
  | _ :: _, [] => false
  | a :: as, b :: bs => if a == b then lexLe as bs else decide (a.toNat < b.toNat)

/-- Stable comparison used by the source's two
`sort((a, b) => a.address.toLowerCase().localeCompare(b.address.toLowerCase()))`
calls; on lowercase hexadecimal address strings `localeCompare` agrees with
lexicographic code-point order. -/
def addrLeIn (a b : AddrIn) : Prop :=
  lexLe (lowerL a.address.data) (lowerL b.address.data) = true

instance : DecidableRel addrLeIn := fun a b =>
  inferInstanceAs (Decidable (lexLe (lowerL a.address.data) (lowerL b.address.data) = true))

/-- Same ordering on output rows. -/
def addrLeOut (a b : AddrOut) : Prop :=
  lexLe (lowerL a.address.data) (lowerL b.address.data) = true

instance : DecidableRel addrLeOut := fun a b =>
  inferInstanceAs (Decidable (lexLe (lowerL a.address.data) (lowerL b.address.data) = true))

/-- `generateAddressLabels` from `src/lib/utils.ts` (lines 194-305): the
identity-label engine.  Sorts the addresses, extracts explicit types,
assigns sequential `Account n` labels to the rest, and re-sorts by address. -/
def generateAddressLabels (signerName : String) (addresses : List AddrIn) :
    List AddrOut :=
  let sorted := List.insertionSort addrLeIn addresses
  let se := extractNameAndType (some signerName)
  let baseSignerName := if se.name != "" then se.name else signerName
  let split := splitPass (firstPass baseSignerName se) sorted
  let ra := processA split.1 [] 0
  let rb := processB baseSignerName split.2 ra.2.1 ra.2.2
  List.insertionSort addrLeOut (ra.1 ++ rb)

/-- One registered network (`Chain` in `src/lib/chains.ts`). -/
structure Chain where
  id : Nat
  name : String
  safeApiUrl : String
  safeApiCode : String
deriving DecidableEq, Repr

/-- `SUPPORTED_CHAINS` from `src/lib/chains.ts`, in registry order. -/
def SUPPORTED_CHAINS : List Chain :=
  [⟨1, "Ethereum Mainnet", "https://api.safe.global/tx-service/eth", "eth"⟩,
   ⟨11155111, "Sepolia", "https://api.safe.global/tx-service/sep", "sep"⟩,
   ⟨42161, "Arbitrum", "https://api.safe.global/tx-service/arb1", "arb1"⟩,
   ⟨10, "Optimism", "https://api.safe.global/tx-service/oeth", "oeth"⟩,
   ⟨8453, "Base", "https://api.safe.global/tx-service/base", "base"⟩,
   ⟨43114, "Avalanche", "https://api.safe.global/tx-service/avax", "avax"⟩,
   ⟨137, "Polygon", "https://api.safe.global/tx-service/pol", "pol"⟩,
   ⟨56, "BSC", "https://api.safe.global/tx-service/bnb", "bnb"⟩,
   ⟨1101, "Polygon zkEVM", "https://api.safe.global/tx-service/zkevm", "zkevm"⟩,
   ⟨324, "zkSync Era", "https://api.safe.global/tx-service/zksync", "zksync"⟩,
   ⟨59144, "Linea", "https://api.safe.global/tx-service/linea", "linea"⟩,
   ⟨81457, "Blast", "https://api.safe.global/tx-service/blast", "blast"⟩,
   ⟨196, "X Layer", "https://api.safe.global/tx-service/okb", "okb"⟩,
   ⟨146, "Sonic", "https://api.safe.global/tx-service/sonic", "sonic"⟩,
   ⟨534352, "Scroll", "https://api.safe.global/tx-service/scroll", "scroll"⟩,
   ⟨100, "Gnosis", "https://api.safe.global/tx-service/gno", "gno"⟩,
   ⟨42220, "Celo", "https://api.safe.global/tx-service/celo", "celo"⟩,
   ⟨5000, "Mantle", "https://api.safe.global/tx-service/mantle", "mantle"⟩,
   ⟨1313161554, "Aurora", "https://api.safe.global/tx-service/aurora", "aurora"⟩,
   ⟨80094, "Berachain", "https://api.safe.global/tx-service/berachain", "berachain"⟩,
   ⟨57073, "Ink", "https://api.safe.global/tx-service/ink", "ink"⟩,
   ⟨9745, "Plasma", "https://api.safe.global/tx-service/plasma", "plasma"⟩,
   ⟨2016, "Stable", "https://api.safe.global/tx-service/stable", "stable"⟩,
   ⟨999, "Hyper EVM", "https://api.safe.global/tx-service/hyper-evm", "hyper-evm"⟩,
   ⟨6342, "MegaETH", "https://api.safe.global/tx-service/mega", "mega"⟩,
   ⟨130, "Unichain", "https://api.safe.global/tx-service/unichain", "unichain"⟩,
   ⟨239, "TAC", "https://api.safe.global/tx-service/tac", "tac"⟩]

/-- `CHAIN_NAME_TO_API_CODE` from `src/lib/chains.ts`. -/
def CHAIN_NAME_TO_API_CODE : List (String × String) :=
  [("eth", "eth"), ("arb1", "arb1"), ("oeth", "oeth"), ("base", "base"),
   ("avax", "avax"), ("polygon", "pol"), ("matic", "pol"), ("bnb", "bnb"),
   ("zkevm", "zkevm"), ("zksync", "zksync"), ("linea", "linea"),
   ("blast", "blast"), ("xlayer", "okb"), ("sonic", "sonic"),
   ("scroll", "scroll"), ("scr", "scroll"), ("sep", "sep"),
   ("sepolia", "sep"), ("berachain", "berachain"), ("ink", "ink"),
   ("plasma", "plasma"), ("stable", "stable"), ("hyper-evm", "hyper-evm"),
   ("mega", "mega"), ("mnt", "mantle"), ("mantle", "mantle"),
   ("unichain", "unichain"), ("tac", "tac"), ("gno", "gno"),
   ("gnosis", "gno"), ("celo", "celo"), ("aurora", "aurora")]

/-- `CHAIN_ID_TO_API_CODE` from `src/lib/chains.ts`. -/
def CHAIN_ID_TO_API_CODE : List (Nat × String) :=
  [(1, "eth"), (11155111, "sep"), (42161, "arb1"), (10, "oeth"),
   (8453, "base"), (43114, "avax"), (137, "pol"), (56, "bnb"),
   (1101, "zkevm"), (324, "zksync"), (59144, "linea"), (81457, "blast"),
   (196, "okb"), (146, "sonic"), (534352, "scroll"), (100, "gno"),
   (42220, "celo"), (1313161554, "aurora"), (5000, "mantle"),
   (80094, "berachain"), (57073, "ink"), (9745, "plasma"), (2016, "stable"),
   (999, "hyper-evm"), (6342, "mega"), (130, "unichain"), (239, "tac")]

/-- `getSafeApiCodeFromChainName`. -/
def getSafeApiCodeFromChainName (chainName : Option String) : Option String :=
  match chainName with
  | none => none
  | some nm =>
    if nm == "" then none
    else (CHAIN_NAME_TO_API_CODE.lookup (trimS (lowerS nm)))

/-- `getSafeApiCodeFromChainId`. -/
def getSafeApiCodeFromChainId (chainId : Nat) : Option String :=
  CHAIN_ID_TO_API_CODE.lookup chainId

/-- The faults the query-client stack can raise.  In the source these are
`Error` values distinguished only by their message text; the constructors
keep the data each message is built from, and `Fault.message` renders the
exact message string the source builds. -/
inductive Fault where
  | notFound (detail : String)
  | notAWallet (detail : String)
  | badRequest (detail : String)
  | httpError (status : Nat) (detail : String)
  | rateLimited (url : String)
  | noRetries
  | configFault
  | tacUnsupported
  | noWalletAnywhere
  | aggregate (msgs : List String)
deriving DecidableEq, Repr

/-- Helper: `msgs.join('; ')`. -/
def joinSemi : List String → String
  | [] => ""
  | [m] => m
  | m :: rest => m ++ "; " ++ joinSemi rest

/-- The message text of each fault, exactly as built in
`src/lib/safe-service.ts`. -/
def Fault.message : Fault → String
  | .notFound d => "Safe not found: " ++ d
  | .notAWallet d => "Address is not a Safe wallet: " ++ d
  | .badRequest d => "Bad request: " ++ d
  | .httpError s d => "Failed to fetch (" ++ toString s ++ "): " ++ d
  | .rateLimited url => "Rate limited: Too many requests for " ++ url
  | .noRetries => "Failed to fetch after retries"
  | .configFault => "SAFE_API_KEY is not set in environment variables"
  | .tacUnsupported =>
    "TAC chain does not support Safe API. Safe wallet data is not available via API."
  | .noWalletAnywhere => "Address is not a Safe wallet on any supported network"
  | .aggregate msgs => "Failed to fetch Safe info: " ++ joinSemi msgs

/-- One mock HTTP response of the transport underlying `fetchWithRetry`:
status, optional `Retry-After` header (seconds), the error detail the
source would extract from a non-2xx body, and the parsed body for a 2xx
response. -/
structure MockResp (α : Type) where
  status : Nat
  retryAfter : Option Nat
  errDetail : String
  body : α

/-- Observable outcome of one `fetchWithRetry` call: how many HTTP calls
were made, the waits (ms) inserted before re-attempts, and the final
result. -/
structure FetchOut (α : Type) where
  calls : Nat
  waits : List Nat
  result : Except Fault α
deriving Repr

/-- The `catch` block of `fetchWithRetry`: a fault whose message contains
`'not found'` or `'not a Safe wallet'` is terminal (no retry); otherwise
wait `retryDelay * (attempt + 1)` unless this was the last attempt.
`rest` is the outcome of the remaining attempts. -/
def fetchCatch (α : Type) (f : Fault) (retryDelay attempt maxRetries : Nat)
    (rest : FetchOut α) : FetchOut α :=
  if includesS f.message "not found" || includesS f.message "not a Safe wallet" then
    ⟨1, [], .error f⟩
  else if attempt < maxRetries - 1 then
    ⟨rest.calls + 1, retryDelay * (attempt + 1) :: rest.waits, rest.result⟩
  else ⟨rest.calls + 1, rest.waits, rest.result⟩

/-- The attempt loop of `fetchWithRetry`, running on fuel `k` (the number
of attempts left); `attempt = maxRetries - k`. -/
def fetchGo (α : Type) (transport : Nat → MockResp α) (url : String)
    (maxRetries retryDelay : Nat) : Nat → Option Fault → FetchOut α
  | 0, lastError =>
    ⟨0, [], .error (match lastError with | some f => f | none => .noRetries)⟩
  | k + 1, lastError =>
    let attempt := maxRetries - (k + 1)
    let r := transport attempt
    if r.status == 429 then
      let waitTime := match r.retryAfter with
        | some ra => ra * 1000
        | none => retryDelay * (attempt + 1)
      if attempt < maxRetries - 1 then
        let rest := fetchGo α transport url maxRetries retryDelay k lastError
        ⟨rest.calls + 1, waitTime :: rest.waits, rest.result⟩
      else
        fetchCatch α (.rateLimited url) retryDelay attempt maxRetries
          (fetchGo α transport url maxRetries retryDelay k (some (.rateLimited url)))
    else if !(200 ≤ r.status && r.status < 300) then
      let f : Fault :=
        if r.status == 404 then .notFound r.errDetail
        else if r.status == 422 then .notAWallet r.errDetail
        else if r.status == 400 then .badRequest r.errDetail
        else .httpError r.status r.errDetail
      fetchCatch α f retryDelay attempt maxRetries
        (fetchGo α transport url maxRetries retryDelay k (some f))
    else ⟨1, [], .ok r.body⟩

/-- `fetchWithRetry` from `src/lib/safe-service.ts` (lines 107-193), with
the HTTP transport supplied as an oracle from attempt number to response. -/
def fetchWithRetry (α : Type) (transport : Nat → MockResp α) (url : String)
    (maxRetries retryDelay : Nat) : FetchOut α :=
  fetchGo α transport url maxRetries retryDelay maxRetries none

/-- `SafeInfo` (the wallet snapshot returned by the resolver). -/
structure SafeInfo where
  address : String
  nonce : Nat
  threshold : Nat
  owners : List String
  masterCopy : Option String
  fallbackHandler : Option String
  guard : Option String
  version : Option String
deriving DecidableEq, Repr

/-- One entry of the reverse-ownership scan result (`SafeWithThreshold`). -/
structure SafeWithThreshold where
  address : String
  threshold : Nat
  totalOwners : Nat
  name : Option String
deriving DecidableEq, Repr

/-- One wallet of the `owners/{address}/safes` endpoint response. -/
structure OwnerSafe where
  address : String
  threshold : Nat
  owners : List String
deriving DecidableEq, Repr

/-- Parsed body of the `owners/{address}/safes` endpoint
(`OwnerSafesResponse`). -/
structure OwnerSafesResp where
  results : List OwnerSafe
deriving DecidableEq, Repr

/-- `getApiKey`: the environment's `SAFE_API_KEY` is trimmed; a missing or
empty value is a configuration fault, raised before any network call. -/
def getApiKeyM (env : Option String) : Except Fault String :=
  match env with
  | none => .error .configFault
  | some s =>
    let k := trimS s
    if k == "" then .error .configFault else .ok k

/-- Is this chain skipped by the probing loops? (TAC has no public Safe
API; both loops skip it by code and by id.) -/
def isTacChain (c : Chain) : Bool := c.safeApiCode == "tac" || c.id == 239

/-- The chains the probing loops actually query, in registry order. -/
def activeChains : List Chain :=
  SUPPORTED_CHAINS.filter (fun c => !isTacChain c)

/-- The classification on line 343-348 of `safe-service.ts`: an error
message that contains one of these markers is treated as expected absence
("not found on this network") and not collected. -/
def expectedAbsenceMsg (m : String) : Bool :=
  includesS m "not found" || includesS m "404"
    || includesS m "not a Safe wallet" || includesS m "422"

/-- The loop of `getSafeInfoFromAllNetworks`: probe each non-TAC chain in
registry order (the probe oracle maps an api code to the outcome of
`getSafeInfoForNetwork`), stop at the first success, collect the messages
of unexpected faults.  Returns the probed api codes and the result. -/
def allNetGo (probe : String → Except Fault SafeInfo) :
    List Chain → List String → List String × Except Fault SafeInfo
  | [], errors =>
    ([], .error (if errors.isEmpty then .noWalletAnywhere else .aggregate errors))
  | c :: cs, errors =>
    if isTacChain c then allNetGo probe cs errors
    else
      match probe c.safeApiCode with
      | .ok info => ([c.safeApiCode], .ok info)
      | .error f =>
        let errors1 :=
          if !expectedAbsenceMsg f.message then
            errors ++ [c.name ++ ": " ++ f.message]
          else errors
        let r := allNetGo probe cs errors1
        (c.safeApiCode :: r.1, r.2)

/-- `getSafeInfoFromAllNetworks` from `src/lib/safe-service.ts`
(lines 321-361). -/
def getSafeInfoFromAllNetworks (probe : String → Except Fault SafeInfo) :
    List String × Except Fault SafeInfo :=
  allNetGo probe SUPPORTED_CHAINS []

/-- The hint-resolution of `getSafeInfo`: derive an api code from a chain
id (if truthy) or else from a chain name (if truthy). -/
def resolveApiCode (chainId : Option Nat) (chainName : Option String) :
    Option String :=
  let viaId : Option String :=
    match chainId with
    | some cid => if cid == 0 then none else getSafeApiCodeFromChainId cid
    | none => none
  match viaId with
  | some c => some c
  | none =>
    match chainName with
    | some nm => if nm == "" then none else getSafeApiCodeFromChainName (some nm)
    | none => none

/-- The classification on lines 245-249 of `safe-service.ts`: after a
failed hinted attempt these markers make the resolver fall back to probing
all networks instead of rethrowing. -/
def hintFallbackMsg (m : String) : Bool :=
  includesS m "not found" || includesS m "not a Safe wallet" || includesS m "422"

/-- The `chainName?.toLowerCase() === 'tac'` test of `getSafeInfo`. -/
def tacNameHint (chainName : Option String) : Bool :=
  match chainName with
  | some nm => lowerS nm == "tac"
  | none => false

/-- `getSafeInfo` from `src/lib/safe-service.ts` (lines 210-262): resolve a
wallet snapshot, trying a hinted network first and falling back to probing
all networks.  `getAddress` checksumming is abstracted away (the claims all
concern well-formed addresses); `env` is the `SAFE_API_KEY` environment
value; `probe` maps an api code to the outcome of
`getSafeInfoForNetwork`.  Returns the probed api codes and the result. -/
def getSafeInfo (env : Option String) (chainId : Option Nat)
    (chainName : Option String) (probe : String → Except Fault SafeInfo) :
    List String × Except Fault SafeInfo :=
  match getApiKeyM env with
  | .error f => ([], .error f)
  | .ok _ =>
    if chainId == some 239 || tacNameHint chainName then
      ([], .error .tacUnsupported)
    else
      match resolveApiCode chainId chainName with
      | some code =>
        if code == "tac" then ([], .error .tacUnsupported)
        else
          match probe code with
          | .ok info => ([code], .ok info)
          | .error f =>
            if hintFallbackMsg f.message then
              let r := getSafeInfoFromAllNetworks probe
              (code :: r.1, r.2)
            else ([code], .error f)
      | none => getSafeInfoFromAllNetworks probe

/-- Conversion of one endpoint result row in `getSafesByOwner`
(checksumming abstracted; `name` is populated later from the database). -/
def toSafeWithThreshold (s : OwnerSafe) : SafeWithThreshold :=
  ⟨s.address, s.threshold, s.owners.length, none⟩

/-- The loop of `getSafesByOwner`: each non-TAC chain is queried; a chain
contributes a key only when its query succeeds with a non-empty result
list; any fault is merely logged and the loop continues. -/
def ownerGo (probe : Chain → Except Fault OwnerSafesResp) :
    List Chain → List (Nat × List SafeWithThreshold)
  | [] => []
  | c :: cs =>
    if isTacChain c then ownerGo probe cs
    else
      match probe c with
      | .ok data =>
        if data.results.length > 0 then
          (c.id, data.results.map toSafeWithThreshold) :: ownerGo probe cs
        else ownerGo probe cs
      | .error _ => ownerGo probe cs

/-- `getSafesByOwner` from `src/lib/safe-service.ts` (lines 366-409): map
each network id to the wallets owned by an address there.  The result is
the association list built in chain-registry order. -/
def getSafesByOwner (probe : Chain → Except Fault OwnerSafesResp) :
    List (Nat × List SafeWithThreshold) :=
  ownerGo probe SUPPORTED_CHAINS

/-!
## Claim theorems
-/

/-- Claim C1 (code bug exhibit).  The claim — and the source's own doc
comment "Ensures no two addresses have the same name+type combination" —
require all output `(displayName, displayType)` pairs to be distinct
case-insensitively.  For the signer "Timo" with explicit address types
"Ledger Account 1", "Ledger", "Ledger", the conflict-resolution branch of
`generateAddressLabels` renames the third address to "Ledger Account 1"
without checking that this disambiguated key is itself already taken, so
two records end up with the identical pair ("Timo", "Ledger Account 1"). -/
theorem C1_uniqueness_violated_at_input :
    generateAddressLabels "Timo"
      [⟨"1", "0xa", none, some "Ledger Account 1"⟩,
       ⟨"2", "0xb", none, some "Ledger"⟩,
       ⟨"3", "0xc", none, some "Ledger"⟩] =
      [⟨"1", "0xa", "Timo", "Ledger Account 1"⟩,
       ⟨"2", "0xb", "Timo", "Ledger"⟩,
       ⟨"3", "0xc", "Timo", "Ledger Account 1"⟩] ∧
    ¬ ((generateAddressLabels "Timo"
      [⟨"1", "0xa", none, some "Ledger Account 1"⟩,
       ⟨"2", "0xb", none, some "Ledger"⟩,
       ⟨"3", "0xc", none, some "Ledger"⟩]).map
        (fun r => (lowerS r.displayName, lowerS r.displayType))).Nodup := by
  decide

/-- Claim C2, counterexample.  The claim says Scenario A yields the records
`{displayName: "Timo", displayType: "Ledger"}` and
`{displayName: "Timo", displayType: "Hot Wallet"}`; in fact the keyword
regexes strip only the keyword, not the surrounding parentheses, so the
display names are "Timo ()". -/
theorem C2_scenario_a_claim_false :
    (generateAddressLabels "Timo"
      [⟨"1", "0xAAA", some "Timo (Ledger)", none⟩,
       ⟨"2", "0xBBB", some "Timo (Hot Wallet)", none⟩]).map
      (fun r => (r.displayName, r.displayType)) ≠
    [("Timo", "Ledger"), ("Timo", "Hot Wallet")] := by decide

/-- Claim C2, amended: for identity base name "Timo" with raw labels
"Timo (Ledger)" and "Timo (Hot Wallet)", the label engine outputs the types
"Ledger" and "Hot Wallet" as claimed, but the display name of both records
is "Timo ()" — the parenthetical shell of the stripped keyword remains. -/
theorem C2_scenario_a_amended :
    generateAddressLabels "Timo"
      [⟨"1", "0xAAA", some "Timo (Ledger)", none⟩,
       ⟨"2", "0xBBB", some "Timo (Hot Wallet)", none⟩] =
    [⟨"1", "0xAAA", "Timo ()", "Ledger"⟩,
     ⟨"2", "0xBBB", "Timo ()", "Hot Wallet"⟩] := by decide

/-- A pattern found in `s` is still found in `s ++ t`. -/
theorem startsWithL_append (u s t : List Char) (h : startsWithL u s = true) :
    startsWithL u (s ++ t) = true := by
  induction u generalizing s with
  | nil => rfl
  | cons p ps ih =>
    cases s with
    | nil => simp [startsWithL] at h
    | cons c cs =>
      simp only [startsWithL, Bool.and_eq_true] at h ⊢
      exact ⟨h.1, ih cs h.2⟩

/-- A substring of `s` is a substring of `s ++ t`. -/
theorem substrL_append_left (u s t : List Char) (h : substrL u s = true) :
    substrL u (s ++ t) = true := by
  induction s with
  | nil =>
    simp only [substrL, List.isEmpty_iff] at h
    subst h
    cases t with
    | nil => rfl
    | cons c cs => simp [substrL, startsWithL]
  | cons c cs ih =>
    simp only [substrL, Bool.or_eq_true] at h ⊢
    rcases h with h | h
    · exact Or.inl (startsWithL_append u (c :: cs) t h)
    · exact Or.inr (ih h)

/-- The message of a 404 fault always contains the marker `'not found'`
that `fetchWithRetry` treats as terminal. -/
theorem notFound_msg_terminal (d : String) :
    includesS (Fault.message (.notFound d)) "not found" = true := by
  show substrL "not found".data (("Safe not found: " ++ d).data) = true
  rw [String.data_append]
  exact substrL_append_left _ _ _ (by decide)

/-- The message of a 422 fault always contains the marker
`'not a Safe wallet'` that `fetchWithRetry` treats as terminal. -/
theorem notAWallet_msg_terminal (d : String) :
    includesS (Fault.message (.notAWallet d)) "not a Safe wallet" = true := by
  show substrL "not a Safe wallet".data (("Address is not a Safe wallet: " ++ d).data) = true
  rw [String.data_append]
  exact substrL_append_left _ _ _ (by decide)


/-- Claim C3: a transport answering 404 or 422 on the first attempt makes
`fetchWithRetry` fail immediately with the not-found / not-a-wallet fault:
exactly one HTTP call, no retry wait. -/
theorem C3_terminal_no_retry (α : Type) (transport : Nat → MockResp α)
    (url : String) (maxRetries retryDelay : Nat) (hmax : 1 ≤ maxRetries)
    (h : (transport 0).status = 404 ∨ (transport 0).status = 422) :
    fetchWithRetry α transport url maxRetries retryDelay =
      ⟨1, [], .error (if (transport 0).status == 404
        then Fault.notFound (transport 0).errDetail
        else Fault.notAWallet (transport 0).errDetail)⟩ := by
  obtain ⟨m, rfl⟩ : ∃ m, maxRetries = m + 1 := ⟨maxRetries - 1, by omega⟩
  unfold fetchWithRetry
  rw [fetchGo]
  simp only [Nat.sub_self]
  rcases h with h4 | h4 <;> rw [h4] <;>
    simp only [show ((404 : Nat) == 429) = false from rfl,
      show ((422 : Nat) == 429) = false from rfl, Bool.false_eq_true, if_false,
      show (!(200 ≤ (404:Nat) && (404:Nat) < 300)) = true from rfl,
      show (!(200 ≤ (422:Nat) && (422:Nat) < 300)) = true from rfl, if_true,
      show ((404 : Nat) == 404) = true from rfl,
      show ((422 : Nat) == 404) = false from rfl,
      show ((422 : Nat) == 422) = true from rfl, fetchCatch]
  · rw [notFound_msg_terminal]
    simp
  · rw [notAWallet_msg_terminal]
    simp


/-- The attempt loop of `fetchWithRetry` under an always-429 transport with
no `Retry-After`: with `k` attempts left it makes `k` calls, waits
`retryDelay * (attemptNumber + 1)` between consecutive calls, and ends with
the rate-limit fault. -/
theorem fetch429_loop (α : Type) (transport : Nat → MockResp α) (url : String)
    (maxRetries retryDelay : Nat)
    (ht : ∀ i, (transport i).status = 429 ∧ (transport i).retryAfter = none) :
    ∀ k, 1 ≤ k → k ≤ maxRetries → ∀ le,
      fetchGo α transport url maxRetries retryDelay k le =
        ⟨k, (List.range (k - 1)).map
              (fun i => retryDelay * (maxRetries - k + i + 1)),
          .error (.rateLimited url)⟩ := by
  intro k
  induction k with
  | zero => omega
  | succ j ih =>
    intro _ hle le
    rw [fetchGo]
    obtain ⟨hs, hra⟩ := ht (maxRetries - (j + 1))
    rw [hs, hra]
    simp only [show ((429 : Nat) == 429) = true from rfl, if_true]
    cases j with
    | zero =>
      have hlt : ¬ (maxRetries - 1 < maxRetries - 1) := by omega
      rw [if_neg hlt]
      rw [fetchGo]
      simp only [fetchCatch]
      by_cases hterm : (includesS (Fault.message (.rateLimited url)) "not found"
          || includesS (Fault.message (.rateLimited url)) "not a Safe wallet") = true
      · rw [if_pos hterm]
        simp
      · rw [if_neg hterm, if_neg hlt]
        simp
    | succ i =>
      have hlt : maxRetries - (i + 1 + 1) < maxRetries - 1 := by omega
      rw [if_pos hlt]
      rw [ih (by omega) (by omega) le]
      have hf : ((fun n => retryDelay * (maxRetries - (i + 1 + 1) + n + 1)) ∘ Nat.succ)
          = (fun n => retryDelay * (maxRetries - (i + 1) + n + 1)) := by
        funext n
        have h2 : maxRetries - (i + 1 + 1) + Nat.succ n + 1
            = maxRetries - (i + 1) + n + 1 := by omega
        simp only [Function.comp_apply, h2]
      simp only [Nat.add_sub_cancel, List.range_succ_eq_map, List.map_cons,
        List.map_map, hf, Nat.add_zero]


/-- Claim C4: under a transport that always returns 429 with no
`Retry-After`, `fetchWithRetry` makes exactly `maxRetries` calls with
strictly increasing waits `retryDelay * attemptNumber` between consecutive
calls, then fails with the rate-limit fault. -/
theorem C4_retry_exhaustion (α : Type) (transport : Nat → MockResp α)
    (url : String) (maxRetries retryDelay : Nat)
    (hmax : 1 ≤ maxRetries) (hd : 0 < retryDelay)
    (ht : ∀ i, (transport i).status = 429 ∧ (transport i).retryAfter = none) :
    fetchWithRetry α transport url maxRetries retryDelay =
      ⟨maxRetries,
        (List.range (maxRetries - 1)).map (fun i => retryDelay * (i + 1)),
        .error (.rateLimited url)⟩ ∧
    List.Pairwise (· < ·)
      (fetchWithRetry α transport url maxRetries retryDelay).waits := by
  have h := fetch429_loop α transport url maxRetries retryDelay ht maxRetries
    hmax le_rfl none
  have hmap : (fun i => retryDelay * (maxRetries - maxRetries + i + 1))
      = (fun i => retryDelay * (i + 1)) := by
    funext i
    rw [Nat.sub_self, Nat.zero_add]
  unfold fetchWithRetry
  rw [h, hmap]
  refine ⟨rfl, ?_⟩
  refine List.Pairwise.map _ ?_ (List.pairwise_lt_range _)
  intro a b hab
  exact mul_lt_mul_of_pos_left (by omega) hd

/-- Witness for C3 at a concrete always-404 transport. -/
theorem C3_terminal_no_retry_witness :
    fetchWithRetry Unit (fun _ => ⟨404, none, "wallet missing", ()⟩)
      "https://example.invalid/" 3 1000 =
      ⟨1, [], .error (.notFound "wallet missing")⟩ :=
  C3_terminal_no_retry Unit (fun _ => ⟨404, none, "wallet missing", ()⟩)
    "https://example.invalid/" 3 1000 (by omega) (Or.inl rfl)

/-- Witness for C4 at a concrete always-429 transport. -/
theorem C4_retry_exhaustion_witness :
    fetchWithRetry Unit (fun _ => ⟨429, none, "", ()⟩)
      "https://example.invalid/" 3 1000 =
      ⟨3, [1000, 2000], .error (.rateLimited "https://example.invalid/")⟩ ∧
    List.Pairwise (· < ·)
      (fetchWithRetry Unit (fun _ => ⟨429, none, "", ()⟩)
        "https://example.invalid/" 3 1000).waits :=
  C4_retry_exhaustion Unit (fun _ => ⟨429, none, "", ()⟩)
    "https://example.invalid/" 3 1000 (by omega) (by omega)
    (fun _ => ⟨rfl, rfl⟩)

/-- The error strings `getSafeInfoFromAllNetworks` collects when every
probe on `L` fails with the fault given by `ff`: one entry per non-TAC
chain whose message is not classified as expected absence. -/
def collectedErrors (ff : Chain → Fault) (L : List Chain) : List String :=
  (L.filter (fun c => !isTacChain c)).filterMap
    (fun c => if expectedAbsenceMsg (ff c).message then none
              else some (c.name ++ ": " ++ (ff c).message))


/-- Characterization of the all-networks probing loop when every probed
network fails: all non-TAC chains are probed in order and the final error
is the generic one exactly when no message was collected. -/
theorem allNetGo_all_errors (probe : String → Except Fault SafeInfo)
    (ff : Chain → Fault) :
    ∀ L : List Chain,
      (∀ c ∈ L, isTacChain c = false → probe c.safeApiCode = .error (ff c)) →
      ∀ errors, allNetGo probe L errors =
        ((L.filter (fun c => !isTacChain c)).map (·.safeApiCode),
         .error (if (errors ++ collectedErrors ff L).isEmpty
                 then .noWalletAnywhere
                 else .aggregate (errors ++ collectedErrors ff L))) := by
  intro L
  induction L with
  | nil =>
    intro _ errors
    simp [allNetGo, collectedErrors]
  | cons c cs ih =>
    intro h errors
    have htail := fun x hx hx2 => h x (List.mem_cons_of_mem c hx) hx2
    cases hc : isTacChain c with
    | true =>
      rw [show allNetGo probe (c :: cs) errors = allNetGo probe cs errors from by
        rw [allNetGo, if_pos hc]]
      rw [ih htail errors]
      simp [collectedErrors, List.filter_cons, hc]
    | false =>
      have hp := h c (List.mem_cons_self c cs) hc
      rw [allNetGo, if_neg (by simp [hc]), hp]
      dsimp only
      have hfilter : List.filter (fun x => !isTacChain x) (c :: cs)
          = c :: List.filter (fun x => !isTacChain x) cs := by
        simp [List.filter_cons, hc]
      by_cases he : expectedAbsenceMsg (ff c).message = true
      · have hcoll : collectedErrors ff (c :: cs) = collectedErrors ff cs := by
          simp [collectedErrors, hfilter, List.filterMap_cons, he]
        rw [if_neg (by simp [he]), ih htail errors, hcoll, hfilter, List.map_cons]
      · have he2 : expectedAbsenceMsg (ff c).message = false := by
          simp [Bool.eq_false_iff, he]
        have hcoll : collectedErrors ff (c :: cs)
            = (c.name ++ ": " ++ (ff c).message) :: collectedErrors ff cs := by
          simp [collectedErrors, hfilter, List.filterMap_cons, he2]
        rw [if_pos (by simp [he2]),
          ih htail (errors ++ [c.name ++ ": " ++ (ff c).message]), hcoll,
          hfilter, List.map_cons]
        have happ : errors ++ [c.name ++ ": " ++ (ff c).message]
              ++ collectedErrors ff cs
            = errors ++ (c.name ++ ": " ++ (ff c).message)
              :: collectedErrors ff cs := by
          rw [List.append_assoc, List.singleton_append]
        rw [happ]


/-- Claim C5, amended.  When no network succeeds: if every probed fault's
message is classified as expected absence, the generic
no-wallet-on-any-network error is raised (in particular this covers all
genuine 404/422 outcomes); and every probed fault whose message does not
contain one of the absence markers ('not found', '404',
'not a Safe wallet', '422') is carried in the aggregated error.  The
amendment is needed because the source classifies by substring-matching
the message, not by fault kind — see the counterexample. -/
theorem C5_amended_fault_surfacing (probe : String → Except Fault SafeInfo)
    (ff : Chain → Fault)
    (h : ∀ c ∈ activeChains, probe c.safeApiCode = .error (ff c)) :
    ((∀ c ∈ activeChains, expectedAbsenceMsg (ff c).message = true) →
      (getSafeInfoFromAllNetworks probe).2 = .error .noWalletAnywhere) ∧
    (∀ c ∈ activeChains, expectedAbsenceMsg (ff c).message = false →
      ∃ E, (getSafeInfoFromAllNetworks probe).2 = .error (.aggregate E) ∧
        (c.name ++ ": " ++ (ff c).message) ∈ E) := by
  have hall : ∀ c ∈ SUPPORTED_CHAINS, isTacChain c = false →
      probe c.safeApiCode = .error (ff c) := by
    intro c hc htac
    exact h c (List.mem_filter.mpr ⟨hc, by simp [htac]⟩)
  have hchar := allNetGo_all_errors probe ff SUPPORTED_CHAINS hall []
  have hact : SUPPORTED_CHAINS.filter (fun c => !isTacChain c) = activeChains := rfl
  constructor
  · intro hexp
    have hnil : collectedErrors ff SUPPORTED_CHAINS = [] := by
      unfold collectedErrors
      rw [List.filterMap_eq_nil_iff]
      intro c hc
      rw [hact] at hc
      rw [if_pos (hexp c hc)]
    unfold getSafeInfoFromAllNetworks
    rw [hchar, hnil]
    simp
  · intro c hc hune
    refine ⟨collectedErrors ff SUPPORTED_CHAINS, ?_, ?_⟩
    · have hmem : (c.name ++ ": " ++ (ff c).message)
          ∈ collectedErrors ff SUPPORTED_CHAINS := by
        unfold collectedErrors
        apply List.mem_filterMap.mpr
        refine ⟨c, ?_, ?_⟩
        · rw [hact]; exact hc
        · rw [hune]; simp
      have hne : (([] : List String) ++ collectedErrors ff SUPPORTED_CHAINS).isEmpty = false := by
        rw [List.nil_append]
        cases hcoll : collectedErrors ff SUPPORTED_CHAINS with
        | nil => rw [hcoll] at hmem; cases hmem
        | cons a l => rfl
      unfold getSafeInfoFromAllNetworks
      rw [hchar, hne]
      simp
    · unfold collectedErrors
      apply List.mem_filterMap.mpr
      refine ⟨c, ?_, ?_⟩
      · rw [hact]; exact hc
      · rw [hune]; simp


/-- Claim C5, counterexample.  Every network fails with a rate-limit
fault — an unexpected fault, which per the claim should be surfaced — but
because the queried address `0x4040…` makes every fault message contain
the substring "404", the resolver misclassifies all of them as expected
absence and raises the generic no-wallet-found error instead. -/
theorem C5_unexpected_fault_swallowed :
    (getSafeInfoFromAllNetworks (fun code => .error (.rateLimited
      ("https://api.safe.global/tx-service/" ++ code
        ++ "/api/v1/safes/0x4040404040404040404040404040404040404040/")))).2
      = .error .noWalletAnywhere := by
  rfl


/-- Witness for C5 (amended): with every network rate-limited at a URL
free of absence markers, the aggregate error carries the Ethereum entry. -/
theorem C5_amended_fault_surfacing_witness :
    ∃ E, (getSafeInfoFromAllNetworks
        (fun _ => .error (.rateLimited "https://example.invalid/"))).2
        = .error (.aggregate E) ∧
      ("Ethereum Mainnet" ++ ": "
        ++ (Fault.rateLimited "https://example.invalid/").message) ∈ E :=
  (C5_amended_fault_surfacing
    (fun _ => .error (.rateLimited "https://example.invalid/"))
    (fun _ => .rateLimited "https://example.invalid/")
    (fun _ _ => rfl)).2
    ⟨1, "Ethereum Mainnet", "https://api.safe.global/tx-service/eth", "eth"⟩
    (by decide) (by decide)

/-- The all-networks probing loop stops at the first success: if the
non-TAC chains split as `pre ++ c :: post` with every chain of `pre`
failing and `c` succeeding, then exactly `pre` and `c` are probed (in
order), `c`'s snapshot is returned, and no chain of `post` is queried. -/
theorem allNetGo_first_success (probe : String → Except Fault SafeInfo)
    (c : Chain) (info : SafeInfo) (hp : probe c.safeApiCode = .ok info) :
    ∀ L : List Chain, ∀ errors pre post,
      L.filter (fun x => !isTacChain x) = pre ++ c :: post →
      (∀ c2 ∈ pre, ∃ f, probe c2.safeApiCode = .error f) →
      allNetGo probe L errors =
        (pre.map (·.safeApiCode) ++ [c.safeApiCode], .ok info) := by
  intro L
  induction L with
  | nil =>
    intro errors pre post hsplit hpre
    rw [List.filter_nil] at hsplit
    cases pre <;> simp at hsplit
  | cons x xs ih =>
    intro errors pre post hsplit hpre
    cases hx : isTacChain x with
    | true =>
      rw [show allNetGo probe (x :: xs) errors = allNetGo probe xs errors from by
        rw [allNetGo, if_pos hx]]
      rw [List.filter_cons, hx] at hsplit
      simp only [Bool.not_true, Bool.false_eq_true, if_false] at hsplit
      exact ih errors pre post hsplit hpre
    | false =>
      rw [List.filter_cons, hx] at hsplit
      simp only [Bool.not_false, if_true] at hsplit
      cases pre with
      | nil =>
        rw [List.nil_append] at hsplit
        injection hsplit with h1 h2
        subst h1
        rw [allNetGo, if_neg (by simp [hx]), hp]
        simp
      | cons p pre2 =>
        rw [List.cons_append] at hsplit
        injection hsplit with h1 h2
        subst h1
        obtain ⟨f, hpf⟩ := hpre x (List.mem_cons_self x pre2)
        rw [allNetGo, if_neg (by simp [hx]), hpf]
        dsimp only
        rw [ih _ pre2 post h2
          (fun c2 hc2 => hpre c2 (List.mem_cons_of_mem x hc2))]
        simp


/-- Claim C6: a resolve call with no usable hint (or whose hinted attempt
failed with a not-found / not-a-wallet outcome) probes the registered
networks sequentially in registry order and returns the snapshot of the
first network that succeeds, probing nothing after it. -/
theorem C6_first_success_wins
    (env : Option String) (k : String) (chainId : Option Nat)
    (chainName : Option String) (probe : String → Except Fault SafeInfo)
    (pre post : List Chain) (c : Chain) (info : SafeInfo)
    (hk : getApiKeyM env = .ok k)
    (hid : chainId ≠ some 239)
    (hnm : ∀ nm, chainName = some nm → lowerS nm ≠ "tac")
    (hhint : resolveApiCode chainId chainName = none ∨
      ∃ hcode d, resolveApiCode chainId chainName = some hcode ∧
        hcode ≠ "tac" ∧
        (probe hcode = .error (.notFound d) ∨
          probe hcode = .error (.notAWallet d)))
    (hsplit : activeChains = pre ++ c :: post)
    (hpre : ∀ c2 ∈ pre, ∃ f, probe c2.safeApiCode = .error f)
    (hcp : probe c.safeApiCode = .ok info) :
    getSafeInfo env chainId chainName probe =
      ((match resolveApiCode chainId chainName with
        | some hcode => [hcode]
        | none => []) ++ pre.map (·.safeApiCode) ++ [c.safeApiCode],
       .ok info) := by
  have hfilter : SUPPORTED_CHAINS.filter (fun x => !isTacChain x)
      = pre ++ c :: post := hsplit
  have hmain := allNetGo_first_success probe c info hcp SUPPORTED_CHAINS []
    pre post hfilter hpre
  have hnm2 : tacNameHint chainName = false := by
    unfold tacNameHint
    cases hn : chainName with
    | none => rfl
    | some nm => exact beq_eq_false_iff_ne.mpr (hnm nm hn)
  have hcond : (chainId == some 239 || tacNameHint chainName) = false := by
    rw [Bool.or_eq_false_iff]
    exact ⟨beq_eq_false_iff_ne.mpr hid, hnm2⟩
  unfold getSafeInfo
  rw [hk]
  dsimp only
  rw [if_neg (by simp [hcond])]
  rcases hhint with hres | ⟨hcode, d, hres, htac, herr⟩
  · rw [hres]
    dsimp only
    unfold getSafeInfoFromAllNetworks
    rw [hmain]
    simp
  · rw [hres]
    dsimp only
    rw [if_neg (by simp [beq_eq_false_iff_ne.mpr htac])]
    rcases herr with herr | herr <;> rw [herr] <;> dsimp only
    · rw [if_pos (by
        unfold hintFallbackMsg
        rw [notFound_msg_terminal]
        simp)]
      unfold getSafeInfoFromAllNetworks
      rw [hmain]
      simp
    · rw [if_pos (by
        unfold hintFallbackMsg
        rw [notAWallet_msg_terminal]
        simp)]
      unfold getSafeInfoFromAllNetworks
      rw [hmain]
      simp


/-- Witness for C6: no hint, the first active chain succeeds, the probe
trace is exactly `["eth"]`. -/
theorem C6_first_success_wins_witness :
    getSafeInfo (some "key") none none
      (fun code => if code == "eth"
        then .ok ⟨"0xSafe", 0, 2, ["0xOwner"], none, none, none, none⟩
        else .error (.notFound "x")) =
      (["eth"], .ok ⟨"0xSafe", 0, 2, ["0xOwner"], none, none, none, none⟩) :=
  C6_first_success_wins (some "key") "key" none none
    (fun code => if code == "eth"
      then .ok ⟨"0xSafe", 0, 2, ["0xOwner"], none, none, none, none⟩
      else .error (.notFound "x"))
    [] (List.drop 1 activeChains)
    ⟨1, "Ethereum Mainnet", "https://api.safe.global/tx-service/eth", "eth"⟩
    ⟨"0xSafe", 0, 2, ["0xOwner"], none, none, none, none⟩
    rfl (by decide) (fun nm h => nomatch h) (Or.inl rfl) (by decide)
    (fun c2 h => absurd h (List.not_mem_nil c2)) rfl

/-- The entry one chain contributes to the reverse-ownership scan result:
a key only when its query succeeds with at least one record. -/
def ownerEntry (probe : Chain → Except Fault OwnerSafesResp) (c : Chain) :
    Option (Nat × List SafeWithThreshold) :=
  match probe c with
  | .ok d =>
    if d.results.length > 0 then some (c.id, d.results.map toSafeWithThreshold)
    else none
  | .error _ => none


/-- Characterization of the scan loop: the result is exactly the
`ownerEntry` of each non-TAC chain in registry order; faults and empty
result lists contribute nothing and abort nothing. -/
theorem ownerGo_eq (probe : Chain → Except Fault OwnerSafesResp) :
    ∀ L : List Chain, ownerGo probe L =
      (L.filter (fun c => !isTacChain c)).filterMap (ownerEntry probe) := by
  intro L
  induction L with
  | nil => rfl
  | cons x xs ih =>
    cases hx : isTacChain x with
    | true =>
      rw [show ownerGo probe (x :: xs) = ownerGo probe xs from by
        rw [ownerGo, if_pos hx]]
      rw [ih]
      simp [List.filter_cons, hx]
    | false =>
      have hfilter : List.filter (fun c => !isTacChain c) (x :: xs)
          = x :: List.filter (fun c => !isTacChain c) xs := by
        simp [List.filter_cons, hx]
      rw [ownerGo, if_neg (by simp [hx]), hfilter, List.filterMap_cons]
      cases hp : probe x with
      | ok d =>
        dsimp only
        rw [show ownerEntry probe x
            = if d.results.length > 0
              then some (x.id, d.results.map toSafeWithThreshold) else none from by
          rw [ownerEntry, hp]]
        by_cases hl : d.results.length > 0
        · rw [if_pos hl, if_pos hl, ih]
        · rw [if_neg hl, if_neg hl, ih]
      | error f =>
        dsimp only
        rw [show ownerEntry probe x = none from by rw [ownerEntry, hp], ih]


/-- Claim C7: for every in-scope network, the scan result has a key for it
if and only if its query succeeded with at least one ownership record — a
fault on one network yields no key and never prevents other networks from
contributing. -/
theorem C7_per_network_isolation (probe : Chain → Except Fault OwnerSafesResp)
    (c : Chain) (hc : c ∈ activeChains) :
    (∃ recs, (c.id, recs) ∈ getSafesByOwner probe) ↔
      (∃ d, probe c = .ok d ∧ d.results ≠ []) := by
  have hact : SUPPORTED_CHAINS.filter (fun x => !isTacChain x) = activeChains := rfl
  have hnodup : (activeChains.map (·.id)).Nodup := by decide
  unfold getSafesByOwner
  rw [ownerGo_eq, hact]
  constructor
  · rintro ⟨recs, hmem⟩
    obtain ⟨c2, hc2, hg⟩ := List.mem_filterMap.mp hmem
    cases hp : probe c2 with
    | ok d =>
      rw [ownerEntry, hp] at hg
      dsimp only at hg
      by_cases hl : d.results.length > 0
      · rw [if_pos hl] at hg
        injection hg with hg2
        have hid : c2.id = c.id := congrArg Prod.fst hg2
        have hceq : c2 = c :=
          List.inj_on_of_nodup_map hnodup hc2 hc hid
        refine ⟨d, by rw [← hceq]; exact hp, ?_⟩
        intro hnil
        rw [hnil] at hl
        simp at hl
      · rw [if_neg hl] at hg
        cases hg
    | error f =>
      rw [ownerEntry, hp] at hg
      dsimp only at hg
      cases hg
  · rintro ⟨d, hp, hne⟩
    refine ⟨d.results.map toSafeWithThreshold,
      List.mem_filterMap.mpr ⟨c, hc, ?_⟩⟩
    rw [ownerEntry, hp]
    dsimp only
    rw [if_pos (by
      cases hd : d.results with
      | nil => exact absurd hd hne
      | cons a l => simp [hd])]


/-- Witness for C7: only Ethereum succeeds (one record), every other
network faults, and the result has the Ethereum key. -/
theorem C7_per_network_isolation_witness :
    ∃ recs, ((1 : Nat), recs) ∈ getSafesByOwner
      (fun c => if c.id == 1
        then .ok ⟨[⟨"0xS", 2, ["0xA", "0xB"]⟩]⟩
        else .error (.notFound "no safes")) :=
  (C7_per_network_isolation
    (fun c => if c.id == 1
      then .ok ⟨[⟨"0xS", 2, ["0xA", "0xB"]⟩]⟩
      else .error (.notFound "no safes"))
    ⟨1, "Ethereum Mainnet", "https://api.safe.global/tx-service/eth", "eth"⟩
    (by decide)).mpr
    ⟨⟨[⟨"0xS", 2, ["0xA", "0xB"]⟩]⟩, rfl, by decide⟩

/-- Claim C10: a resolve call whose hint identifies the TAC network —
chain id 239, a chain name lowercasing to "tac", or any hint resolving to
the api code "tac" — fails immediately with the TAC-unsupported fault,
probing no network at all (empty probe trace) and never falling back to
the other registered networks. -/
theorem C10_tac_hint_rejected
    (env : Option String) (k : String) (chainId : Option Nat)
    (chainName : Option String) (probe : String → Except Fault SafeInfo)
    (hk : getApiKeyM env = .ok k)
    (h : chainId = some 239 ∨
      (∃ nm, chainName = some nm ∧ lowerS nm = "tac") ∨
      resolveApiCode chainId chainName = some "tac") :
    getSafeInfo env chainId chainName probe = ([], .error .tacUnsupported) := by
  unfold getSafeInfo
  rw [hk]
  dsimp only
  by_cases hcond : (chainId == some 239 || tacNameHint chainName) = true
  · rw [if_pos hcond]
  · rw [if_neg hcond]
    rcases h with h | ⟨nm, hnm, hl⟩ | hres
    · exfalso
      apply hcond
      rw [h]
      simp
    · exfalso
      apply hcond
      have : tacNameHint chainName = true := by
        rw [hnm]
        show (lowerS nm == "tac") = true
        rw [hl]
        rfl
      rw [this]
      simp
    · rw [hres]
      dsimp only
      rw [if_pos (show (("tac" : String) == "tac") = true from rfl)]


/-- Witness for C10 at the concrete hint chain id 239. -/
theorem C10_tac_hint_rejected_witness :
    getSafeInfo (some "key") (some 239) none
      (fun _ => .error .noRetries) = ([], .error .tacUnsupported) :=
  C10_tac_hint_rejected (some "key") "key" (some 239) none
    (fun _ => .error .noRetries) rfl (Or.inl rfl)

/-- The explicit-type pass emits exactly one output row per input entry,
carrying its id. -/
theorem processA_map_id :
    ∀ (l : List (AddrIn × String × String)) (used : List String) (ctr : Nat),
      (processA l used ctr).1.map (·.id) = l.map (·.1.id) := by
  intro l
  induction l with
  | nil => intro used ctr; rfl
  | cons x xs ih =>
    intro used ctr
    obtain ⟨a, dn, dt⟩ := x
    rw [processA]
    dsimp only
    rw [List.map_cons, ih]
    rfl


/-- The sequential-number pass emits exactly one output row per input
address, carrying its id. -/
theorem processB_map_id (base : String) :
    ∀ (l : List AddrIn) (used : List String) (ctr : Nat),
      (processB base l used ctr).map (·.id) = l.map (·.id) := by
  intro l
  induction l with
  | nil => intro used ctr; rfl
  | cons a xs ih =>
    intro used ctr
    rw [processB]
    rw [List.map_cons, ih]
    rfl


/-- The two groups of the first pass together hold exactly the input
addresses (as a permutation of ids). -/
theorem splitPass_perm (f : AddrIn → Option (String × String)) :
    ∀ l : List AddrIn,
      List.Perm ((splitPass f l).1.map (·.1.id) ++ (splitPass f l).2.map (·.id))
        (l.map (·.id)) := by
  intro l
  induction l with
  | nil => rfl
  | cons a t ih =>
    rw [splitPass]
    cases hf : f a with
    | some p =>
      dsimp only
      rw [List.map_cons, List.cons_append, List.map_cons]
      exact (ih.cons a.id)
    | none =>
      dsimp only
      rw [List.map_cons, List.map_cons]
      exact List.perm_middle.trans (ih.cons a.id)


/-- Claim C8: the label engine is total — it is a terminating function on
all inputs (including empty lists, null labels, and whitespace or
punctuation labels, none of which are special-cased anywhere in the
model) and returns exactly one `ResolvedLabel` per input address, with
the ids preserved as a multiset. -/
theorem C8_total_one_label_per_address (signerName : String)
    (addrs : List AddrIn) :
    (generateAddressLabels signerName addrs).length = addrs.length ∧
    List.Perm ((generateAddressLabels signerName addrs).map (·.id))
      (addrs.map (·.id)) := by
  have hperm : List.Perm ((generateAddressLabels signerName addrs).map (·.id))
      (addrs.map (·.id)) := by
    unfold generateAddressLabels
    dsimp only
    refine ((List.perm_insertionSort _ _).map _).trans ?_
    rw [List.map_append, processA_map_id, processB_map_id]
    exact (splitPass_perm _ _).trans ((List.perm_insertionSort _ _).map _)
  refine ⟨?_, hperm⟩
  have h1 := hperm.length_eq
  rwa [List.length_map, List.length_map] at h1

/-- `Char.toLower` adds 32 to the code of an uppercase ASCII letter. -/
theorem lowerC_toNat_of_upper (c : Char) (h1 : 65 ≤ c.toNat)
    (h2 : c.toNat ≤ 90) : (lowerC c).toNat = c.toNat + 32 := by
  unfold lowerC Char.toLower
  rw [if_pos ⟨h1, h2⟩]
  have hv : (c.toNat + 32).isValidChar := by
    unfold Nat.isValidChar
    left
    omega
  unfold Char.ofNat
  rw [dif_pos hv]
  rfl

/-- `Char.toLower` fixes everything outside the uppercase ASCII range. -/
theorem lowerC_eq_self (c : Char) (h : ¬(65 ≤ c.toNat ∧ c.toNat ≤ 90)) :
    lowerC c = c := by
  unfold lowerC Char.toLower
  rw [if_neg h]

/-- Characters with different codes are not `==`. -/
theorem beq_false_of_toNat_ne (a b : Char) (h : a.toNat ≠ b.toNat) :
    (a == b) = false :=
  beq_eq_false_iff_ne.mpr (fun he => h (congrArg Char.toNat he))

/-- Lowercasing preserves whitespace-ness. -/
theorem isWs_lowerC (c : Char) : isWsC (lowerC c) = isWsC c := by
  have t1 : (' ' : Char).toNat = 32 := rfl
  have t2 : ('\t' : Char).toNat = 9 := rfl
  have t3 : ('\n' : Char).toNat = 10 := rfl
  have t4 : ('\r' : Char).toNat = 13 := rfl
  have t5 : ('\x0b' : Char).toNat = 11 := rfl
  have t6 : ('\x0c' : Char).toNat = 12 := rfl
  by_cases h : 65 ≤ c.toNat ∧ c.toNat ≤ 90
  · have hn := lowerC_toNat_of_upper c h.1 h.2
    obtain ⟨h1, h2⟩ := h
    unfold isWsC
    rw [beq_false_of_toNat_ne _ _ (by rw [hn, t1]; omega),
      beq_false_of_toNat_ne _ _ (by rw [hn, t2]; omega),
      beq_false_of_toNat_ne _ _ (by rw [hn, t3]; omega),
      beq_false_of_toNat_ne _ _ (by rw [hn, t4]; omega),
      beq_false_of_toNat_ne _ _ (by rw [hn, t5]; omega),
      beq_false_of_toNat_ne _ _ (by rw [hn, t6]; omega),
      beq_false_of_toNat_ne _ _ (by rw [t1]; omega),
      beq_false_of_toNat_ne _ _ (by rw [t2]; omega),
      beq_false_of_toNat_ne _ _ (by rw [t3]; omega),
      beq_false_of_toNat_ne _ _ (by rw [t4]; omega),
      beq_false_of_toNat_ne _ _ (by rw [t5]; omega),
      beq_false_of_toNat_ne _ _ (by rw [t6]; omega)]
  · rw [lowerC_eq_self c h]

/-- The underscore-to-space substitution commutes with lowercasing. -/
theorem undC_lowerC (c : Char) :
    (if lowerC c == '_' then ' ' else lowerC c)
      = lowerC (if c == '_' then ' ' else c) := by
  have t95 : ('_' : Char).toNat = 95 := rfl
  have hsp : lowerC ' ' = ' ' := lowerC_eq_self ' ' (by decide)
  by_cases hc : c = '_'
  · subst hc
    have h1 : lowerC '_' = '_' := lowerC_eq_self '_' (by decide)
    rw [h1]
    simp [hsp]
  · have h2 : (c == '_') = false := beq_eq_false_iff_ne.mpr hc
    rw [h2]
    by_cases hu : 65 ≤ c.toNat ∧ c.toNat ≤ 90
    · have hn := lowerC_toNat_of_upper c hu.1 hu.2
      have h3 : (lowerC c == '_') = false :=
        beq_false_of_toNat_ne _ _ (by rw [hn, t95]; omega)
      rw [h3]
      simp
    · simp [lowerC_eq_self c hu, h2]

/-- `lowerL` commutes with `mapUnd`. -/
theorem lowerL_mapUnd (x : List Char) :
    lowerL (mapUnd x) = mapUnd (lowerL x) := by
  unfold lowerL mapUnd
  rw [List.map_map, List.map_map]
  apply List.map_congr_left
  intro c _
  exact (undC_lowerC c).symm

/-- `lowerL` commutes with `reverse`. -/
theorem lowerL_reverse (y : List Char) :
    lowerL y.reverse = (lowerL y).reverse := by
  unfold lowerL
  rw [List.map_reverse]

/-- `lowerL` commutes with dropping leading whitespace. -/
theorem dropWhileWs_lowerL (x : List Char) :
    (lowerL x).dropWhile isWsC = lowerL (x.dropWhile isWsC) := by
  induction x with
  | nil => rfl
  | cons c t ih =>
    unfold lowerL
    rw [List.map_cons, List.dropWhile_cons, List.dropWhile_cons, isWs_lowerC]
    by_cases h : isWsC c = true
    · rw [if_pos h, if_pos h]
      exact ih
    · rw [if_neg h, if_neg h]
      rfl

/-- `lowerL` commutes with `trimL`. -/
theorem lowerL_trimL (x : List Char) : lowerL (trimL x) = trimL (lowerL x) := by
  unfold trimL
  rw [dropWhileWs_lowerL, ← lowerL_reverse, dropWhileWs_lowerL, ← lowerL_reverse]

/-- `lowerL` commutes with whitespace collapsing. -/
theorem lowerL_collapse : ∀ x, lowerL (collapseWsL x) = collapseWsL (lowerL x)
  | [] => rfl
  | [c] => by
    have hsp : lowerC ' ' = ' ' := lowerC_eq_self ' ' (by decide)
    show lowerL [if isWsC c then ' ' else c]
      = [if isWsC (lowerC c) then ' ' else lowerC c]
    rw [isWs_lowerC]
    by_cases h : isWsC c = true
    · rw [if_pos h, if_pos h]
      show [lowerC ' '] = [' ']
      rw [hsp]
    · rw [if_neg h, if_neg h]
      rfl
  | c :: d :: cs => by
    have hsp : lowerC ' ' = ' ' := lowerC_eq_self ' ' (by decide)
    have ih := lowerL_collapse (d :: cs)
    show lowerL (if isWsC c && isWsC d then collapseWsL (d :: cs)
        else (if isWsC c then ' ' else c) :: collapseWsL (d :: cs))
      = (if isWsC (lowerC c) && isWsC (lowerC d)
          then collapseWsL (lowerC d :: lowerL cs)
          else (if isWsC (lowerC c) then ' ' else lowerC c)
            :: collapseWsL (lowerC d :: lowerL cs))
    rw [isWs_lowerC, isWs_lowerC]
    by_cases h : (isWsC c && isWsC d) = true
    · rw [if_pos h, if_pos h]
      exact ih
    · rw [if_neg h, if_neg h]
      show lowerC (if isWsC c then ' ' else c)
          :: lowerL (collapseWsL (d :: cs)) = _
      rw [ih]
      by_cases h2 : isWsC c = true
      · rw [if_pos h2, if_pos h2, hsp]
        rfl
      · rw [if_neg h2, if_neg h2]
        rfl

/-- `startsWithL` as an existential decomposition. -/
theorem startsWithL_iff (u s : List Char) :
    startsWithL u s = true ↔ ∃ t, s = u ++ t := by
  induction u generalizing s with
  | nil =>
    simp only [startsWithL, List.nil_append]
    exact ⟨fun _ => ⟨s, rfl⟩, fun _ => trivial⟩
  | cons p ps ih =>
    cases s with
    | nil =>
      simp only [startsWithL]
      constructor
      · intro h
        cases h
      · rintro ⟨t, ht⟩
        cases ht
    | cons c cs =>
      simp only [startsWithL, Bool.and_eq_true, beq_iff_eq, List.cons_append]
      constructor
      · rintro ⟨h1, h2⟩
        obtain ⟨t, ht⟩ := (ih cs).mp h2
        exact ⟨t, by rw [h1, ht]⟩
      · rintro ⟨t, ht⟩
        injection ht with h1 h2
        exact ⟨h1.symm, (ih cs).mpr ⟨t, h2⟩⟩

/-- `substrL` as an existential decomposition. -/
theorem substrL_iff (u s : List Char) :
    substrL u s = true ↔ ∃ p q, s = p ++ u ++ q := by
  induction s with
  | nil =>
    simp only [substrL, List.isEmpty_iff]
    constructor
    · intro h
      exact ⟨[], [], by rw [h]; rfl⟩
    · rintro ⟨p, q, hpq⟩
      rcases List.append_eq_nil.mp
        (List.append_eq_nil.mp hpq.symm).1 with ⟨_, h2⟩
      exact h2
  | cons c cs ih =>
    simp only [substrL, Bool.or_eq_true]
    constructor
    · rintro (h | h)
      · obtain ⟨t, ht⟩ := (startsWithL_iff u (c :: cs)).mp h
        exact ⟨[], t, by rw [ht]; rfl⟩
      · obtain ⟨p, q, hpq⟩ := ih.mp h
        exact ⟨c :: p, q, by rw [hpq]; rfl⟩
    · rintro ⟨p, q, hpq⟩
      cases p with
      | nil =>
        left
        rw [List.nil_append] at hpq
        exact (startsWithL_iff u (c :: cs)).mpr ⟨q, hpq⟩
      | cons a p2 =>
        right
        rw [List.cons_append, List.cons_append] at hpq
        injection hpq with h1 h2
        exact ih.mpr ⟨p2, q, h2⟩

/-- The empty pattern is a substring of anything. -/
theorem substrL_nil : ∀ s : List Char, substrL [] s = true := by
  intro s
  cases s with
  | nil => rfl
  | cons c cs => simp [substrL, startsWithL]

/-- A substring of the tail is a substring. -/
theorem substrL_cons (u : List Char) (c : Char) (t : List Char)
    (h : substrL u t = true) : substrL u (c :: t) = true := by
  simp only [substrL, Bool.or_eq_true]
  exact Or.inr h

/-- Does the list start with a non-whitespace character? -/
def frontOk : List Char → Bool
  | [] => false
  | c :: _ => !isWsC c

/-- Does the list end with a non-whitespace character? -/
def backOk : List Char → Bool
  | [] => false
  | [c] => !isWsC c
  | _ :: t => backOk t

/-- A substring starting with a non-whitespace character survives
dropping leading whitespace. -/
theorem substrL_dropWhileWs (u : List Char) (hf : frontOk u = true) :
    ∀ s, substrL u s = true → substrL u (s.dropWhile isWsC) = true := by
  intro s
  induction s with
  | nil => intro h; exact h
  | cons c cs ih =>
    intro h
    rw [List.dropWhile_cons]
    by_cases hwc : isWsC c = true
    · rw [if_pos hwc]
      apply ih
      obtain ⟨p, q, hpq⟩ := (substrL_iff u (c :: cs)).mp h
      cases p with
      | nil =>
        rw [List.nil_append] at hpq
        cases u with
        | nil => exact substrL_nil cs
        | cons a u2 =>
          injection hpq with h1 h2
          rw [frontOk, ← h1, hwc] at hf
          cases hf
      | cons b p2 =>
        rw [List.cons_append, List.cons_append] at hpq
        injection hpq with h1 h2
        exact (substrL_iff u cs).mpr ⟨p2, q, h2⟩
    · rw [if_neg hwc]
      exact h

/-- Substring containment is preserved under reversal. -/
theorem substrL_reverse (u s : List Char) (h : substrL u s = true) :
    substrL u.reverse s.reverse = true := by
  obtain ⟨p, q, hpq⟩ := (substrL_iff u s).mp h
  apply (substrL_iff u.reverse s.reverse).mpr
  refine ⟨q.reverse, p.reverse, ?_⟩
  rw [hpq]
  simp [List.reverse_append, List.append_assoc]

/-- `frontOk` of the reversal is `backOk`. -/
theorem frontOk_reverse_backOk : ∀ u : List Char, frontOk u.reverse = backOk u
  | [] => rfl
  | [c] => rfl
  | c :: d :: t => by
    have ih := frontOk_reverse_backOk (d :: t)
    have hne : (d :: t).reverse ≠ [] := by simp
    rw [show (c :: d :: t).reverse = (d :: t).reverse ++ [c] from by simp]
    rw [show backOk (c :: d :: t) = backOk (d :: t) from rfl]
    rw [← ih]
    cases hrev : (d :: t).reverse with
    | nil => exact absurd hrev hne
    | cons a r => rfl

/-- A substring with non-whitespace first and last characters survives
trimming. -/
theorem substrL_trimL (u : List Char) (hf : frontOk u = true)
    (hb : backOk u = true) (s : List Char) (h : substrL u s = true) :
    substrL u (trimL s) = true := by
  have h1 := substrL_dropWhileWs u hf s h
  have h2 := substrL_reverse u _ h1
  have h3 := substrL_dropWhileWs u.reverse
    (by rw [frontOk_reverse_backOk]; exact hb) _ h2
  have h4 := substrL_reverse u.reverse _ h3
  rw [List.reverse_reverse] at h4
  exact h4

/-- A substring without underscores survives the underscore-to-space
substitution. -/
theorem substrL_mapUnd (u : List Char)
    (hund : ∀ c ∈ u, (c == '_') = false) (s : List Char)
    (h : substrL u s = true) : substrL u (mapUnd s) = true := by
  obtain ⟨p, q, hpq⟩ := (substrL_iff u s).mp h
  apply (substrL_iff u (mapUnd s)).mpr
  have hu : List.map (fun c => if c == '_' then ' ' else c) u = u := by
    have hpt : ∀ c ∈ u, (if c == '_' then ' ' else c) = c :=
      fun c hc => by simp [hund c hc]
    rw [List.map_congr_left hpt, List.map_id']
  refine ⟨mapUnd p, mapUnd q, ?_⟩
  rw [hpq]
  unfold mapUnd
  rw [List.map_append, List.map_append, hu]

/-- No two adjacent whitespace characters. -/
def noDblWs : List Char → Bool
  | [] => true
  | [_] => true
  | a :: b :: t => !(isWsC a && isWsC b) && noDblWs (b :: t)

/-- Every whitespace character is a plain space. -/
def wsSpace (u : List Char) : Bool := u.all (fun c => !isWsC c || c == ' ')

/-- A negated boolean equal to `true` is `false`. -/
theorem bool_not_true {b : Bool} (h : (!b) = true) : b = false := by
  cases b
  · rfl
  · cases h

/-- Collapsing whitespace passes over a token whose whitespace is already
single spaces surrounded by non-whitespace and whose last character is
non-whitespace. -/
theorem collapse_push : ∀ u : List Char, backOk u = true → noDblWs u = true →
    wsSpace u = true → ∀ q, collapseWsL (u ++ q) = u ++ collapseWsL q
  | [] => by intro hb _ _ _; cases hb
  | [c] => by
    intro hb _ _ q
    have hc : isWsC c = false := bool_not_true hb
    cases q with
    | nil =>
      show collapseWsL [c] = [c]
      rw [show collapseWsL [c] = [if isWsC c then ' ' else c] from rfl, hc]
      rfl
    | cons d t =>
      show collapseWsL (c :: d :: t) = c :: collapseWsL (d :: t)
      rw [show collapseWsL (c :: d :: t)
          = if isWsC c && isWsC d then collapseWsL (d :: t)
            else (if isWsC c then ' ' else c) :: collapseWsL (d :: t) from rfl,
        hc]
      simp
  | c :: c2 :: u2 => by
    intro hb hn hw q
    have hb2 : backOk (c2 :: u2) = true := hb
    have hn' := hn
    unfold noDblWs at hn'
    simp only [Bool.and_eq_true] at hn'
    obtain ⟨hn1, hn2⟩ := hn'
    have hcc : (isWsC c && isWsC c2) = false := bool_not_true hn1
    have hw' := hw
    unfold wsSpace at hw'
    rw [List.all_cons] at hw'
    simp only [Bool.and_eq_true] at hw'
    obtain ⟨hwc, hw2⟩ := hw'
    have ih := collapse_push (c2 :: u2) hb2 hn2 hw2 q
    rw [show ((c2 :: u2) ++ q : List Char) = c2 :: (u2 ++ q) from rfl] at ih
    show collapseWsL (c :: c2 :: (u2 ++ q)) = c :: c2 :: u2 ++ collapseWsL q
    rw [show collapseWsL (c :: c2 :: (u2 ++ q))
        = if isWsC c && isWsC c2 then collapseWsL (c2 :: (u2 ++ q))
          else (if isWsC c then ' ' else c) :: collapseWsL (c2 :: (u2 ++ q))
        from rfl, hcc]
    simp only [Bool.false_eq_true, if_false]
    rw [ih]
    by_cases h : isWsC c = true
    · rw [if_pos h]
      have hsp : (c == ' ') = true := by
        rw [h] at hwc
        simpa using hwc
      rw [beq_iff_eq.mp hsp]
      rfl
    · rw [if_neg h]
      rfl

/-- Such a token occurring after any prefix survives whitespace
collapsing. -/
theorem collapse_keeps_aux (u : List Char) (hb : backOk u = true)
    (hn : noDblWs u = true) (hw : wsSpace u = true) (q : List Char) :
    ∀ p, substrL u (collapseWsL (p ++ (u ++ q))) = true := by
  intro p
  induction p with
  | nil =>
    rw [List.nil_append, collapse_push u hb hn hw q]
    exact (substrL_iff _ _).mpr ⟨[], collapseWsL q, rfl⟩
  | cons c p2 ih =>
    have hu : u ≠ [] := by
      intro h
      rw [h] at hb
      cases hb
    have hL : p2 ++ (u ++ q) ≠ [] := by
      intro h
      obtain ⟨-, h2⟩ := List.append_eq_nil.mp h
      obtain ⟨h3, -⟩ := List.append_eq_nil.mp h2
      exact hu h3
    rw [List.cons_append]
    cases hpt : p2 ++ (u ++ q) with
    | nil => exact absurd hpt hL
    | cons d t =>
      rw [show collapseWsL (c :: d :: t)
          = if isWsC c && isWsC d then collapseWsL (d :: t)
            else (if isWsC c then ' ' else c) :: collapseWsL (d :: t)
          from rfl]
      rw [← hpt]
      by_cases hcd : (isWsC c && isWsC d) = true
      · rw [if_pos hcd]
        exact ih
      · rw [if_neg hcd]
        exact substrL_cons u _ _ ih

/-- Such a token survives whitespace collapsing as a substring. -/
theorem substrL_collapse (u : List Char) (hb : backOk u = true)
    (hn : noDblWs u = true) (hw : wsSpace u = true) (s : List Char)
    (h : substrL u s = true) : substrL u (collapseWsL s) = true := by
  obtain ⟨p, q, hpq⟩ := (substrL_iff u s).mp h
  rw [hpq, List.append_assoc]
  exact collapse_keeps_aux u hb hn hw q p

/-- Does any of the nine keyword recognizers of `extractNameAndType` fire
on this input?  (The guards, verbatim, in source order.) -/
def extractTriggers (s : String) : Bool :=
  let lower := trimL (lowerL s.data)
  (substrL "hot".data lower && substrL "wallet".data lower)
  || (substrL "hardware".data lower && substrL "wallet".data lower)
  || substrL "ledger".data lower
  || (accRegex '1' lower || substrL ("account ".data ++ ['1']) lower
       || substrL ("account_".data ++ ['1']) lower)
  || (accRegex '2' lower || substrL ("account ".data ++ ['2']) lower
       || substrL ("account_".data ++ ['2']) lower)
  || (accRegex '3' lower || substrL ("account ".data ++ ['3']) lower
       || substrL ("account_".data ++ ['3']) lower)
  || (accRegex '4' lower || substrL ("account ".data ++ ['4']) lower
       || substrL ("account_".data ++ ['4']) lower)
  || substrL "operator".data lower
  || substrL "proposer".data lower

/-- When none of the nine recognizers fires, `extractNameAndType` returns
no type and only normalizes whitespace and underscores in the name. -/
theorem no_trigger_extract (s : String) (hs : (s == "") = false)
    (h : extractTriggers s = false) :
    extractNameAndType (some s)
      = ⟨⟨trimL (collapseWsL (mapUnd (trimL s.data)))⟩, none⟩ := by
  unfold extractTriggers at h
  simp only [Bool.or_eq_false_iff] at h
  obtain ⟨⟨⟨⟨⟨⟨⟨⟨h1, h2⟩, h3⟩, ⟨⟨h4a, h4b⟩, h4c⟩⟩, ⟨⟨h5a, h5b⟩, h5c⟩⟩,
    ⟨⟨h6a, h6b⟩, h6c⟩⟩, ⟨⟨h7a, h7b⟩, h7c⟩⟩, h8⟩, h9⟩ := h
  unfold extractNameAndType
  simp only [hs, Bool.false_eq_true, if_false, h1, h2, h3, h4a, h4b, h4c,
    h5a, h5b, h5c, h6a, h6b, h6c, h7a, h7b, h7c, h8, h9, Bool.false_or]

/-- `backOk` ignores a leading character when the tail is nonempty. -/
theorem backOk_cons (a : Char) (L : List Char) (h : L ≠ []) :
    backOk (a :: L) = backOk L := by
  cases L with
  | nil => exact absurd rfl h
  | cons b t => rfl

/-- A nonempty all-non-whitespace list ends well. -/
theorem backOk_of_nonWs : ∀ ds : List Char, ds ≠ [] →
    (∀ c ∈ ds, isWsC c = false) → backOk ds = true
  | [], h, _ => absurd rfl h
  | [d], _, hws => by
    show (!isWsC d) = true
    rw [hws d (List.mem_singleton.mpr rfl)]
    rfl
  | d :: e :: t, _, hws => by
    rw [backOk_cons d (e :: t) (by simp)]
    exact backOk_of_nonWs (e :: t) (by simp)
      (fun c hc => hws c (List.mem_cons_of_mem d hc))

/-- `backOk` of an append is `backOk` of the nonempty right part. -/
theorem backOk_append (x ds : List Char) (h : ds ≠ []) :
    backOk (x ++ ds) = backOk ds := by
  induction x with
  | nil => rfl
  | cons a x2 ih =>
    rw [List.cons_append, backOk_cons a (x2 ++ ds) (by
      intro hnil
      obtain ⟨-, h2⟩ := List.append_eq_nil.mp hnil
      exact h h2), ih]

/-- Prepending a non-whitespace character preserves `noDblWs`. -/
theorem noDbl_cons_nonWs (c : Char) (h : isWsC c = false) :
    ∀ l : List Char, noDblWs l = true → noDblWs (c :: l) = true
  | [], _ => rfl
  | d :: t, hl => by
    show (!(isWsC c && isWsC d) && noDblWs (d :: t)) = true
    rw [h, hl]
    rfl

/-- An all-non-whitespace list has no double whitespace. -/
theorem noDbl_of_nonWs : ∀ l : List Char, (∀ c ∈ l, isWsC c = false) →
    noDblWs l = true
  | [], _ => rfl
  | c :: t, h => by
    apply noDbl_cons_nonWs c (h c (List.mem_cons_self c t))
    exact noDbl_of_nonWs t (fun a ha => h a (List.mem_cons_of_mem c ha))

/-- Decimal digit characters are not whitespace. -/
theorem digitCode_not_ws (c : Char) (h1 : 48 ≤ c.toNat) (h2 : c.toNat ≤ 57) :
    isWsC c = false := by
  unfold isWsC
  rw [beq_false_of_toNat_ne _ _ (by rw [show (' ' : Char).toNat = 32 from rfl]; omega),
    beq_false_of_toNat_ne _ _ (by rw [show ('\t' : Char).toNat = 9 from rfl]; omega),
    beq_false_of_toNat_ne _ _ (by rw [show ('\n' : Char).toNat = 10 from rfl]; omega),
    beq_false_of_toNat_ne _ _ (by rw [show ('\r' : Char).toNat = 13 from rfl]; omega),
    beq_false_of_toNat_ne _ _ (by rw [show ('\x0b' : Char).toNat = 11 from rfl]; omega),
    beq_false_of_toNat_ne _ _ (by rw [show ('\x0c' : Char).toNat = 12 from rfl]; omega)]
  rfl

/-- Claim C9, amended.  The extractor recognizes an explicit
account-number token only for the numbers 1-4, but recognition is by
prefix substring matching, so any token `account N` whose decimal form
begins with a digit 1-4 (e.g. `account 10`) fires the corresponding
recognizer.  For every input containing an `account N` token (digit
string `ds`) on which none of the nine recognizers fires — in particular
whenever the first digit of `N` is 5-9 and no other keyword occurs — the
extracted type is null and the account token remains part of the cleaned
(lowercased) name. -/
theorem C9_amended_account_ge5 (s : String) (ds : List Char) (hne : ds ≠ [])
    (hdig : ∀ c ∈ ds, 48 ≤ c.toNat ∧ c.toNat ≤ 57)
    (htrig : extractTriggers s = false)
    (htok : substrL ("account ".data ++ ds) (lowerL s.data) = true) :
    (extractNameAndType (some s)).type = none ∧
    substrL ("account ".data ++ ds)
      (lowerL (extractNameAndType (some s)).name.data) = true := by
  have hdsws : ∀ c ∈ ds, isWsC c = false :=
    fun c hc => digitCode_not_ws c (hdig c hc).1 (hdig c hc).2
  have hs : (s == "") = false := by
    cases hse : (s == "") with
    | false => rfl
    | true =>
      have he : s = "" := by
        have := hse
        simpa using this
      rw [he] at htok
      simp [substrL] at htok
  have hext := no_trigger_extract s hs htrig
  have hfront : frontOk ("account ".data ++ ds) = true := rfl
  have hback : backOk ("account ".data ++ ds) = true := by
    rw [backOk_append _ ds hne]
    exact backOk_of_nonWs ds hne hdsws
  have hdbl : noDblWs ("account ".data ++ ds) = true := by
    cases ds with
    | nil => exact absurd rfl hne
    | cons d t =>
      have hd : isWsC d = false := hdsws d (List.mem_cons_self d t)
      have htail : noDblWs (d :: t) = true :=
        noDbl_of_nonWs (d :: t) hdsws
      show noDblWs ('a' :: 'c' :: 'c' :: 'o' :: 'u' :: 'n' :: 't' :: ' '
        :: d :: t) = true
      refine noDbl_cons_nonWs 'a' (by decide) _ ?_
      refine noDbl_cons_nonWs 'c' (by decide) _ ?_
      refine noDbl_cons_nonWs 'c' (by decide) _ ?_
      refine noDbl_cons_nonWs 'o' (by decide) _ ?_
      refine noDbl_cons_nonWs 'u' (by decide) _ ?_
      refine noDbl_cons_nonWs 'n' (by decide) _ ?_
      show (!(isWsC 't' && isWsC ' ') && noDblWs (' ' :: d :: t)) = true
      have h2 : noDblWs (' ' :: d :: t) = true := by
        show (!(isWsC ' ' && isWsC d) && noDblWs (d :: t)) = true
        rw [hd, htail]
        rfl
      rw [h2]
      rfl
  have hwsp : wsSpace ("account ".data ++ ds) = true := by
    unfold wsSpace
    rw [List.all_append]
    have hl : ("account ".data).all (fun c => !isWsC c || c == ' ') = true := by
      decide
    have hr : ds.all (fun c => !isWsC c || c == ' ') = true := by
      rw [List.all_eq_true]
      intro c hc
      rw [hdsws c hc]
      rfl
    rw [hl, hr]
    rfl
  have hund : ∀ c ∈ "account ".data ++ ds, (c == '_') = false := by
    intro c hc
    rcases List.mem_append.mp hc with hc | hc
    · have hall : ∀ x ∈ ("account ".data : List Char), (x == '_') = false := by
        decide
      exact hall c hc
    · exact beq_false_of_toNat_ne _ _ (by
        have := hdig c hc
        rw [show ('_' : Char).toNat = 95 from rfl]
        omega)
  refine ⟨by rw [hext], ?_⟩
  rw [hext]
  show substrL ("account ".data ++ ds)
    (lowerL (trimL (collapseWsL (mapUnd (trimL s.data))))) = true
  rw [lowerL_trimL, lowerL_collapse, lowerL_mapUnd, lowerL_trimL]
  have s1 := substrL_trimL _ hfront hback _ htok
  have s2 := substrL_mapUnd _ hund _ s1
  have s3 := substrL_collapse _ hback hdbl hwsp _ s2
  exact substrL_trimL _ hfront hback _ s3

/-- Claim C9, counterexample.  "Bob account 10" contains the token
`account 10` with `N = 10 ≥ 5` and no other keyword, yet the extracted
type is "Account 1" (via the `includes('account 1')` substring check) and
the token does not remain in the cleaned name. -/
theorem C9_account10_recognized :
    extractNameAndType (some "Bob account 10")
      = ⟨"Bob0", some "Account 1"⟩ := by decide

/-- Witness for C9 (amended) at the concrete input "Bob account 5". -/
theorem C9_amended_account_ge5_witness :
    (extractNameAndType (some "Bob account 5")).type = none ∧
    substrL ("account ".data ++ ['5'])
      (lowerL (extractNameAndType (some "Bob account 5")).name.data)
      = true :=
  C9_amended_account_ge5 "Bob account 5" ['5'] (by decide)
    (by decide) (by decide) (by decide)
